import Mathlib

/-!
Shallow embedding of the editing core of the hecto-tutorial-practice editor.

Strings are modelled as lists of characters standing for the byte sequence of
the Rust `String`; grapheme clusters are modelled as the fragment lists that the
source derives from Unicode segmentation (`Line::str_to_fragments`).  The
segmentation itself is not modelled: a `Line` is its fragment table, with the
raw string and the per-fragment byte starts derived from it, reflecting the
source invariant that fragments partition the raw string contiguously and in
order.
-/

namespace Hecto

/-- Display width of a grapheme cluster (`GraphemeWidth` in `editor/line`). -/
inductive GraphemeWidth
  | Half
  | Full
deriving DecidableEq, Repr

/-- Column count of a width class, as used by `Line::width_until`
(`Half => 1, Full => 2`). -/
def GraphemeWidth.cols : GraphemeWidth → Nat
  | .Half => 1
  | .Full => 2

/-- `TextFragment` (editor/line/textfragment.rs): one grapheme cluster of a
line.  The stored `start_byte_idx` of the source is derived from the fragment
list instead of stored, per the partition invariant. -/
structure TextFragment where
  grapheme : List Char
  rendered_width : GraphemeWidth
  replacement : Option Char
deriving DecidableEq, Repr

/-- `Line` (editor/line/mod.rs): the fragment table; the raw string is the
concatenation of the fragments' graphemes. -/
structure Line where
  fragments : List TextFragment
deriving DecidableEq, Repr

/-- The raw string of a line: concatenation of its grapheme clusters. -/
def Line.string (l : Line) : List Char :=
  (l.fragments.map (fun f => f.grapheme)).flatten

/-- `Line::grapheme_count`. -/
def Line.grapheme_count (l : Line) : Nat :=
  l.fragments.length

/-- Byte start of fragment `i`: sum of the byte lengths of the preceding
graphemes (the `start_byte_idx` field kept by `rebuild_fragments`). -/
def Line.fragment_start (l : Line) (i : Nat) : Nat :=
  ((l.fragments.take i).map (fun f => f.grapheme.length)).sum

/-- `Line::width_until`: total rendered width of the first `g` fragments. -/
def Line.width_until (l : Line) (g : Nat) : Nat :=
  ((l.fragments.take g).map (fun f => f.rendered_width.cols)).sum

/-- `Line::width`. -/
def Line.width (l : Line) : Nat :=
  l.width_until l.grapheme_count

/-- Helper for `Line::byte_idx_to_grapheme_idx`: Rust
`fragments.iter().position(|fragment| fragment.start >= byte_idx)`,
walking the fragments with the running byte position. -/
def byteToGraphemeAux (b : Nat) : List TextFragment → Nat → Option Nat
  | [], _ => none
  | f :: rest, pos =>
    if b ≤ pos then some 0
    else (byteToGraphemeAux b rest (pos + f.grapheme.length)).map (fun i => i + 1)

/-- `Line::byte_idx_to_grapheme_idx`. -/
def Line.byte_idx_to_grapheme_idx (l : Line) (b : Nat) : Option Nat :=
  if b > l.string.length then none
  else byteToGraphemeAux b l.fragments 0

/-- `Line::grapheme_idx_to_byte_idx` (release behaviour: the out-of-range
fallback returns 0). -/
def Line.grapheme_idx_to_byte_idx (l : Line) (g : Nat) : Nat :=
  if g = 0 ∨ l.grapheme_count = 0 then 0
  else if g < l.grapheme_count then l.fragment_start g
  else 0

/-- Non-overlapping leftmost substring matching: the documented semantics of
Rust `str::match_indices` with a string pattern, on the byte model.  The fuel
argument bounds the scan; `matchIndices` supplies enough fuel for the whole
haystack.  Callers in the source always pass a non-empty pattern. -/
def matchIndicesAux (hay pat : List Char) : Nat → Nat → List Nat
  | _, 0 => []
  | i, Nat.succ fuel =>
    if 1 ≤ pat.length ∧ i + pat.length ≤ hay.length then
      if pat.isPrefixOf (hay.drop i) then
        i :: matchIndicesAux hay pat (i + pat.length) fuel
      else
        matchIndicesAux hay pat (i + 1) fuel
    else []

/-- All non-overlapping leftmost match positions of `pat` in `hay`. -/
def matchIndices (hay pat : List Char) : List Nat :=
  matchIndicesAux hay pat 0 hay.length

/-- `Line::match_grapheme_clusters`: keep only the byte matches whose mapped
grapheme index starts a run of clusters that re-assembles exactly to the query
(the query is carried as a `Line` so that its own segmentation supplies
`query.graphemes(true).count()`). -/
def Line.match_grapheme_clusters (l : Line) (potentialMatches : List Nat) (query : Line) :
    List (Nat × Nat) :=
  let n := query.grapheme_count
  potentialMatches.filterMap (fun start =>
    (l.byte_idx_to_grapheme_idx start).bind (fun graphemeIdx =>
      if graphemeIdx + n ≤ l.grapheme_count then
        let substring :=
          (((l.fragments.drop graphemeIdx).take n).map (fun f => f.grapheme)).flatten
        if substring = query.string then some (start, graphemeIdx) else none
      else none))

/-- `Line::find_all`: byte-level matches inside a byte range, filtered down to
cluster-aligned ones.  `string.get(start..end)` yields `None` when
`start > end` (after clamping `end`), in which case the result is empty. -/
def Line.find_all (l : Line) (query : Line) (rstart rend : Nat) : List (Nat × Nat) :=
  if rstart ≤ min rend l.string.length then
    l.match_grapheme_clusters
      ((matchIndices ((l.string.drop rstart).take (min rend l.string.length - rstart))
        query.string).map (fun i => i + rstart)) query
  else []

/-- `Line::search_forward`. -/
def Line.search_forward (l : Line) (query : Line) (fromGraphemeIdx : Nat) : Option Nat :=
  if fromGraphemeIdx = l.grapheme_count then none
  else
    let start := l.grapheme_idx_to_byte_idx fromGraphemeIdx
    (l.find_all query start l.string.length).head?.map (fun p => p.2)

/-- `Line::search_backward`. -/
def Line.search_backward (l : Line) (query : Line) (fromGraphemeIdx : Nat) : Option Nat :=
  if fromGraphemeIdx = 0 then none
  else
    let endByte :=
      if fromGraphemeIdx = l.grapheme_count then l.string.length
      else l.grapheme_idx_to_byte_idx fromGraphemeIdx
    (l.find_all query 0 endByte).getLast?.map (fun p => p.2)

/-- `Line::delete`: removing the byte span of the target cluster and rebuilding
drops exactly that fragment; no-op when the index is out of range. -/
def Line.delete (l : Line) (idx : Nat) : Line :=
  if idx < l.grapheme_count then ⟨l.fragments.eraseIdx idx⟩ else l

/-- `Line::append`: concatenate the raw strings and rebuild. -/
def Line.append (l other : Line) : Line :=
  ⟨l.fragments ++ other.fragments⟩

/-- `Line::split`: truncate self to the bytes before fragment `idx` and return
the tail as a new line; splitting at or past the cluster count returns an empty
tail and leaves the line unchanged. -/
def Line.split (l : Line) (idx : Nat) : Line × Line :=
  if idx < l.grapheme_count then (⟨l.fragments.take idx⟩, ⟨l.fragments.drop idx⟩)
  else (l, ⟨[]⟩)

/-- `Location` (prelude/location.rs): document-space cursor position. -/
structure Location where
  grapheme_index : Nat
  line_index : Nat
deriving DecidableEq, Repr

/-- `Position` (screen-space coordinate, scroll-adjusted). -/
structure Position where
  row : Nat
  col : Nat
deriving DecidableEq, Repr

/-- `Size` (terminal.rs). -/
structure Size where
  height : Nat
  width : Nat
deriving DecidableEq, Repr

/-- `FileInfo` (editor/view/fileinfo.rs): an optional file path, modelled as a
character list. -/
structure FileInfo where
  path : Option (List Char)
deriving DecidableEq, Repr

/-- `FileInfo::has_path`. -/
def FileInfo.has_path (f : FileInfo) : Bool :=
  f.path.isSome

/-- `Buffer` (uicomponents/view/buffer.rs). -/
structure Buffer where
  lines : List Line
  file_info : FileInfo
  dirty : Bool
deriving DecidableEq, Repr

/-- `Buffer::height`. -/
def Buffer.height (b : Buffer) : Nat :=
  b.lines.length

/-- `Buffer::is_empty`. -/
def Buffer.is_empty (b : Buffer) : Bool :=
  b.lines.isEmpty

/-- `Buffer::search_forward`: cyclic scan over the lines starting at
`from.line_index` — the sequence `enumerate().cycle().skip(from.line_index)
.take(len + 1)` visits line `(from.line_index + k) % len` at step `k`, with
only step 0 starting at `from.grapheme_index`.  The empty query and the empty
buffer yield no match. -/
def Buffer.search_forward (b : Buffer) (query : Line) (fromLoc : Location) :
    Option Location :=
  if query.string = [] then none
  else if b.lines.length = 0 then none
  else
    (List.range (b.lines.length + 1)).findSome? (fun k =>
      let li := (fromLoc.line_index + k) % b.lines.length
      (b.lines.get? li).bind (fun line =>
        (line.search_forward query (if k = 0 then fromLoc.grapheme_index else 0)).map
          (fun g => { grapheme_index := g, line_index := li })))

/-- `Buffer::search_backward`: reversed cyclic scan; step `k` visits line
`len - 1 - ((len - from.line_index - 1 + k) % len)`, only step 0 starting at
`from.grapheme_index`, later steps from the line's end. -/
def Buffer.search_backward (b : Buffer) (query : Line) (fromLoc : Location) :
    Option Location :=
  if query.string = [] then none
  else if b.lines.length = 0 then none
  else
    (List.range (b.lines.length + 1)).findSome? (fun k =>
      let skipped := b.lines.length - fromLoc.line_index - 1
      let li := b.lines.length - 1 - ((skipped + k) % b.lines.length)
      (b.lines.get? li).bind (fun line =>
        (line.search_backward query
            (if k = 0 then fromLoc.grapheme_index else line.grapheme_count)).map
          (fun g => { grapheme_index := g, line_index := li })))

/-- `Buffer::delete` (uicomponents/view/buffer.rs lines 187-208). -/
def Buffer.delete (b : Buffer) (loc : Location) : Buffer :=
  match b.lines.get? loc.line_index with
  | none => b
  | some line =>
    if loc.grapheme_index ≥ line.grapheme_count ∧ loc.line_index + 1 < b.height then
      let next := b.lines.getD (loc.line_index + 1) ⟨[]⟩
      { b with
        lines := ((b.lines.eraseIdx (loc.line_index + 1)).set loc.line_index
          (line.append next)),
        dirty := true }
    else if loc.grapheme_index < line.grapheme_count then
      { b with
        lines := b.lines.set loc.line_index (line.delete loc.grapheme_index),
        dirty := true }
    else b

/-- `Buffer::insert_newline`. -/
def Buffer.insert_newline (b : Buffer) (loc : Location) : Buffer :=
  if loc.line_index = b.height then
    { b with lines := b.lines ++ [⟨[]⟩], dirty := true }
  else
    match b.lines.get? loc.line_index with
    | some line =>
      let parts := line.split loc.grapheme_index
      { b with
        lines := ((b.lines.set loc.line_index parts.1).take (loc.line_index + 1)) ++
          parts.2 :: ((b.lines.set loc.line_index parts.1).drop (loc.line_index + 1)),
        dirty := true }
    | none => b

/-- `Buffer::save_to_file` with the write effect made explicit: the returned
record is the created file (path and serialized lines); with no path nothing is
written.  `io_ok` stands for success of the file-system calls. -/
def Buffer.save_to_file (b : Buffer) (io_ok : Bool) :
    Except Unit (Option (List Char × List (List Char))) :=
  match b.file_info.path with
  | some p =>
    if io_ok then .ok (some (p, b.lines.map Line.string)) else .error ()
  | none => .ok none

/-- `Buffer::save`: `save_to_file(&self.file_info)?; self.dirty = false; Ok(())`.
The triple returned is (result, buffer afterwards, performed write). -/
def Buffer.save (b : Buffer) (io_ok : Bool) :
    Except Unit Unit × Buffer × Option (List Char × List (List Char)) :=
  match b.save_to_file io_ok with
  | .error e => (.error e, b, none)
  | .ok w => (.ok (), { b with dirty := false }, w)

/-- `AnnotationType` (annotatedstring/annotationtype.rs). -/
inductive AnnotType
  | Match
  | SelectedMatch
deriving DecidableEq, Repr

/-- One annotation: a tagged half-open byte range (annotatedstring/annotation.rs;
field names follow `annotatedstring/mod.rs`). -/
structure Annot where
  annotation_type : AnnotType
  start_byte_idx : Nat
  end_byte_idx : Nat
deriving DecidableEq, Repr

/-- `AnnotatedString` (annotatedstring/mod.rs). -/
structure AnnotatedString where
  string : List Char
  annotations : List Annot
deriving DecidableEq, Repr

/-- `AnnotatedString::add_annotation`: push, no overlap resolution. -/
def AnnotatedString.addAnnot (s : AnnotatedString) (t : AnnotType)
    (start_byte_idx end_byte_idx : Nat) : AnnotatedString :=
  { s with annotations := s.annotations ++ [⟨t, start_byte_idx, end_byte_idx⟩] }

/-- Index adjustment rule applied by `AnnotatedString::replace` to each
annotation boundary (identical for start and end indices in the source):
positions at or after the clamped end of the edited region shift by the length
difference; positions inside the region shift but are clamped to the region's
boundaries; positions before it are untouched.  Subtraction is `usize`
saturating subtraction, which is `Nat` subtraction. -/
def adjustIdx (startB endC diff newLen replacedLen idx : Nat) : Nat :=
  if endC ≤ idx then
    if newLen < replacedLen then idx - diff else idx + diff
  else if startB ≤ idx then
    if newLen < replacedLen then max startB (idx - diff) else min endC (idx + diff)
  else idx

/-- `AnnotatedString::replace` (annotatedstring/mod.rs lines 56-145). -/
def AnnotatedString.replace (s : AnnotatedString) (start_byte_idx end_byte_idx : Nat)
    (new_string : List Char) : AnnotatedString :=
  let endC := min end_byte_idx s.string.length
  if start_byte_idx > endC then s
  else
    let str2 := s.string.take start_byte_idx ++ new_string ++ s.string.drop endC
    let replacedLen := endC - start_byte_idx
    let diff :=
      if new_string.length ≥ replacedLen then new_string.length - replacedLen
      else replacedLen - new_string.length
    if diff = 0 then { s with string := str2 }
    else
      let anns := s.annotations.map (fun a =>
        { a with
          start_byte_idx :=
            adjustIdx start_byte_idx endC diff new_string.length replacedLen
              a.start_byte_idx,
          end_byte_idx :=
            adjustIdx start_byte_idx endC diff new_string.length replacedLen
              a.end_byte_idx })
      { string := str2,
        annotations := anns.filter (fun a =>
          decide (a.start_byte_idx < a.end_byte_idx ∧ a.start_byte_idx < str2.length)) }

/-- One emitted part of the iteration (annotatedstring/annotatedstringpart.rs). -/
structure AnnotatedStringPart where
  string : List Char
  annotation_type : Option AnnotType
deriving DecidableEq, Repr

/-- `AnnotatedStringIterator::next` as a step function: from byte index
`current` produce the next part and the index it ends at, or `none` at the end
of the string.  The annotated branch picks the last-pushed annotation
containing `current` and runs to its (clamped) end; the unannotated branch runs
to the nearest annotation start after `current`, or the end of the string. -/
def AnnotatedString.iterNext (s : AnnotatedString) (current : Nat) :
    Option (AnnotatedStringPart × Nat) :=
  if current ≥ s.string.length then none
  else
    match (s.annotations.filter (fun a =>
        decide (a.start_byte_idx ≤ current ∧ current < a.end_byte_idx))).getLast? with
    | some a =>
      let endIdx := min a.end_byte_idx s.string.length
      some (⟨(s.string.drop current).take (endIdx - current), some a.annotation_type⟩,
        endIdx)
    | none =>
      let endIdx := s.annotations.foldl
        (fun e a =>
          if a.start_byte_idx > current ∧ a.start_byte_idx < e then a.start_byte_idx
          else e)
        s.string.length
      some (⟨(s.string.drop current).take (endIdx - current), none⟩, endIdx)

/-- Collect all parts of the iteration, with fuel (the iterator strictly
advances, so `string.length + 1` steps always suffice). -/
def AnnotatedString.iterPartsAux (s : AnnotatedString) :
    Nat → Nat → List AnnotatedStringPart
  | _, 0 => []
  | current, Nat.succ fuel =>
    match s.iterNext current with
    | none => []
    | some (p, next) => p :: s.iterPartsAux next fuel

/-- The full sequence of parts produced by iterating an `AnnotatedString`. -/
def AnnotatedString.iterParts (s : AnnotatedString) : List AnnotatedStringPart :=
  s.iterPartsAux 0 (s.string.length + 1)

/-- The effective annotation state of a byte: the last-added annotation whose
range contains it, if any (the spec's render-time rule). -/
def AnnotatedString.effectiveAnnot (s : AnnotatedString) (b : Nat) : Option AnnotType :=
  ((s.annotations.filter (fun a =>
      decide (a.start_byte_idx ≤ b ∧ b < a.end_byte_idx))).getLast?).map
    (fun a => a.annotation_type)

/-- `SearchDirection` (uicomponents/view/searchdirection.rs is absent from the
snapshot; modelled from its two uses: `Forward`/`Backward` with `Forward` the
default, per the source comment "默认向下搜索"). -/
inductive SearchDirection
  | Forward
  | Backward
deriving DecidableEq, Repr

/-- `SearchInfo` (editor/view/searchinfo.rs). -/
structure SearchInfo where
  prev_location : Location
  prev_scroll_offset : Position
  query : Option Line
deriving DecidableEq, Repr

/-- `View` (uicomponents/view/mod.rs). -/
structure View where
  buffer : Buffer
  needs_redraw : Bool
  size : Size
  text_location : Location
  scroll_offset : Position
  search_info : Option SearchInfo
deriving DecidableEq, Repr

/-- `View::default()` (all fields `Default`). -/
def View.default : View :=
  { buffer := ⟨[], ⟨none⟩, false⟩
    needs_redraw := false
    size := ⟨0, 0⟩
    text_location := ⟨0, 0⟩
    scroll_offset := ⟨0, 0⟩
    search_info := none }

/-- `View::text_location_to_position`. -/
def View.text_location_to_position (v : View) : Position :=
  let row := v.text_location.line_index
  let col :=
    match v.buffer.lines.get? row with
    | none => 0
    | some line => line.width_until v.text_location.grapheme_index
  { row := row, col := col }

/-- `View::scroll_vertically`. -/
def View.scroll_vertically (v : View) (toIdx : Nat) : View :=
  if toIdx < v.scroll_offset.row then
    { v with scroll_offset := { v.scroll_offset with row := toIdx }, needs_redraw := true }
  else if toIdx ≥ v.scroll_offset.row + v.size.height then
    { v with
      scroll_offset := { v.scroll_offset with row := toIdx - v.size.height + 1 },
      needs_redraw := true }
  else v

/-- `View::scroll_horizontally`. -/
def View.scroll_horizontally (v : View) (toIdx : Nat) : View :=
  if toIdx < v.scroll_offset.col then
    { v with scroll_offset := { v.scroll_offset with col := toIdx }, needs_redraw := true }
  else if toIdx ≥ v.scroll_offset.col + v.size.width then
    { v with
      scroll_offset := { v.scroll_offset with col := toIdx - v.size.width + 1 },
      needs_redraw := true }
  else v

/-- `View::scroll_text_location_into_view`. -/
def View.scroll_text_location_into_view (v : View) : View :=
  let p := v.text_location_to_position
  (v.scroll_vertically p.row).scroll_horizontally p.col

/-- `View::center_text_location` (`div_ceil(2)` is `(n + 1) / 2`). -/
def View.center_text_location (v : View) : View :=
  let p := v.text_location_to_position
  { v with
    scroll_offset :=
      { row := p.row - (v.size.height + 1) / 2, col := p.col - (v.size.width + 1) / 2 },
    needs_redraw := true }

/-- `View::caret_position`. -/
def View.caret_position (v : View) : Position :=
  { row := v.text_location_to_position.row - v.scroll_offset.row
    col := v.text_location_to_position.col - v.scroll_offset.col }

/-- `View::snap_to_valid_grapheme`. -/
def View.snap_to_valid_grapheme (v : View) : View :=
  { v with
    text_location :=
      { v.text_location with
        grapheme_index :=
          match v.buffer.lines.get? v.text_location.line_index with
          | none => 0
          | some line => min line.grapheme_count v.text_location.grapheme_index } }

/-- `View::snap_to_valid_line`. -/
def View.snap_to_valid_line (v : View) : View :=
  { v with
    text_location :=
      { v.text_location with
        line_index := min v.text_location.line_index v.buffer.height } }

/-- `View::move_up`. -/
def View.move_up (v : View) (step : Nat) : View :=
  ({ v with
      text_location :=
        { v.text_location with line_index := v.text_location.line_index - step }
    }).snap_to_valid_grapheme

/-- `View::move_down`. -/
def View.move_down (v : View) (step : Nat) : View :=
  (({ v with
      text_location :=
        { v.text_location with line_index := v.text_location.line_index + step }
    }).snap_to_valid_grapheme).snap_to_valid_line

/-- `View::move_to_start_of_line`. -/
def View.move_to_start_of_line (v : View) : View :=
  { v with text_location := { v.text_location with grapheme_index := 0 } }

/-- `View::move_to_end_of_line`. -/
def View.move_to_end_of_line (v : View) : View :=
  { v with
    text_location :=
      { v.text_location with
        grapheme_index :=
          match v.buffer.lines.get? v.text_location.line_index with
          | none => 0
          | some line => line.grapheme_count } }

/-- `View::move_right`. -/
def View.move_right (v : View) : View :=
  let line_width :=
    match v.buffer.lines.get? v.text_location.line_index with
    | none => 0
    | some line => line.grapheme_count
  if v.text_location.grapheme_index < line_width then
    { v with
      text_location :=
        { v.text_location with grapheme_index := v.text_location.grapheme_index + 1 } }
  else
    (v.move_to_start_of_line).move_down 1

/-- `View::move_left`. -/
def View.move_left (v : View) : View :=
  if 0 < v.text_location.grapheme_index then
    { v with
      text_location :=
        { v.text_location with grapheme_index := v.text_location.grapheme_index - 1 } }
  else if 0 < v.text_location.line_index then
    (v.move_up 1).move_to_end_of_line
  else v

/-- `Move` commands (editor/command). -/
inductive Move
  | Up
  | Down
  | Left
  | Right
  | PageUp
  | PageDown
  | StartOfLine
  | EndOfLine
deriving DecidableEq, Repr

/-- `View::handle_move_command`: dispatch the move, then scroll the text
location into view. -/
def View.handle_move_command (v : View) (c : Move) : View :=
  let moved :=
    match c with
    | .Up => v.move_up 1
    | .Down => v.move_down 1
    | .Left => v.move_left
    | .Right => v.move_right
    | .PageUp => v.move_up (v.size.height - 1)
    | .PageDown => v.move_down (v.size.height - 1)
    | .StartOfLine => v.move_to_start_of_line
    | .EndOfLine => v.move_to_end_of_line
  moved.scroll_text_location_into_view

/-- `View::set_size` (UIComponent impl): store the size, then re-apply the
scroll-into-view adjustment. -/
def View.set_size (v : View) (s : Size) : View :=
  ({ v with size := s }).scroll_text_location_into_view

/-- `View::enter_search`: snapshot the location and scroll offset. -/
def View.enter_search (v : View) : View :=
  { v with
    search_info := some
      { prev_location := v.text_location
        prev_scroll_offset := v.scroll_offset
        query := none } }

/-- `View::exit_search`. -/
def View.exit_search (v : View) : View :=
  { v with search_info := none, needs_redraw := true }

/-- `View::dismiss_search`: restore the snapshot, scroll it into view, then
exit search mode. -/
def View.dismiss_search (v : View) : View :=
  let restored :=
    match v.search_info with
    | some si =>
      ({ v with
          text_location := si.prev_location,
          scroll_offset := si.prev_scroll_offset }).scroll_text_location_into_view
    | none => v
  restored.exit_search

/-- `View::get_search_query` (release behaviour: `None` when absent). -/
def View.get_search_query (v : View) : Option Line :=
  v.search_info.bind (fun si => si.query)

/-- `View::search_in_direction`. -/
def View.search_in_direction (v : View) (fromLoc : Location) (dir : SearchDirection) :
    View :=
  let found := v.get_search_query.bind (fun query =>
    if query.string = [] then none
    else if dir = SearchDirection.Forward then v.buffer.search_forward query fromLoc
    else v.buffer.search_backward query fromLoc)
  let v2 :=
    match found with
    | some loc => ({ v with text_location := loc }).center_text_location
    | none => v
  { v2 with needs_redraw := true }

/-- The start location computed by `View::search_next` (mod.rs lines 164-171):
the current location stepped right by `map_or(1, |query| min(query
.grapheme_count(), 1))` graphemes. -/
def View.search_next_start (v : View) : Location :=
  let step_right :=
    match v.get_search_query with
    | none => 1
    | some query => min query.grapheme_count 1
  { grapheme_index := v.text_location.grapheme_index + step_right
    line_index := v.text_location.line_index }

/-- `View::search_next`. -/
def View.search_next (v : View) : View :=
  v.search_in_direction v.search_next_start SearchDirection.Forward

/-- `View::search_prev`. -/
def View.search_prev (v : View) : View :=
  v.search_in_direction v.text_location SearchDirection.Backward

/-- `View::insert_newline` (the `Edit::InsertNewline` handler): delegate to the
buffer, then move right (which also scrolls), then mark for redraw. -/
def View.insert_newline (v : View) : View :=
  let v2 := { v with buffer := v.buffer.insert_newline v.text_location }
  { v2.handle_move_command Move.Right with needs_redraw := true }

/-- A move or resize command, the commands quantified over by the viewport
containment invariant. -/
inductive ViewCommand
  | move (m : Move)
  | resize (s : Size)
deriving DecidableEq, Repr

/-- Apply one move or resize command to the view
(`handle_move_command` / `set_size`). -/
def View.apply_command (v : View) : ViewCommand → View
  | .move m => v.handle_move_command m
  | .resize s => v.set_size s

/-- The viewport containment property: the cursor's rendered position lies
within the visible window given by scroll offset and size. -/
def View.cursor_in_view (v : View) : Prop :=
  v.scroll_offset.row ≤ v.text_location_to_position.row ∧
  v.text_location_to_position.row < v.scroll_offset.row + v.size.height ∧
  v.scroll_offset.col ≤ v.text_location_to_position.col ∧
  v.text_location_to_position.col < v.scroll_offset.col + v.size.width

instance (v : View) : Decidable v.cursor_in_view := by
  unfold View.cursor_in_view
  infer_instance

/-! Concrete fixtures used by counterexamples and witnesses. -/

/-- A single-character half-width fragment, the segmentation of an ASCII
character. -/
def fragOf (c : Char) : TextFragment :=
  ⟨[c], .Half, none⟩

/-- The line "ab" of the spec's concrete scenarios. -/
def lineAB : Line :=
  ⟨[fragOf 'a', fragOf 'b']⟩

/-- The line "cde" of the spec's concrete scenarios. -/
def lineCDE : Line :=
  ⟨[fragOf 'c', fragOf 'd', fragOf 'e']⟩

/-- The query "cd" of the spec's concrete scenarios. -/
def qCD : Line :=
  ⟨[fragOf 'c', fragOf 'd']⟩

/-- The document with lines ["ab", "cde"]. -/
def bufAB_CDE : Buffer :=
  ⟨[lineAB, lineCDE], ⟨none⟩, false⟩

/-- A view over ["ab", "cde"] in search mode with query "cd", cursor on the
match at line 1, grapheme 0. -/
def vC1 : View :=
  { buffer := bufAB_CDE
    needs_redraw := false
    size := ⟨2, 10⟩
    text_location := { grapheme_index := 0, line_index := 1 }
    scroll_offset := ⟨0, 0⟩
    search_info := some
      { prev_location := { grapheme_index := 0, line_index := 0 }
        prev_scroll_offset := ⟨0, 0⟩
        query := some qCD } }

/-! Claim C10. -/

/-- Claim C10: calling `save()` on a buffer whose `FileInfo` carries no file
path performs no write at all, returns `Ok(())`, and nevertheless clears the
dirty flag to false. -/
theorem C10_save_without_path (b : Buffer) (io_ok : Bool)
    (h : b.file_info.path = none) :
    b.save io_ok = (.ok (), { b with dirty := false }, none) := by
  simp [Buffer.save, Buffer.save_to_file, h]

/-- Witness for C10 at a concrete unnamed, modified buffer. -/
theorem C10_save_without_path_witness :
    bufAB_CDE.file_info.path = none ∧
    ({ bufAB_CDE with dirty := true } : Buffer).save true =
      (.ok (), bufAB_CDE, none) :=
  ⟨rfl, C10_save_without_path { bufAB_CDE with dirty := true } true rfl⟩

/-! Claim C1. -/

/-- Claim C1 counterexample: with the two-grapheme query "cd" at location
{line 1, grapheme 0}, `search_next` starts its forward search at grapheme
0 + min(2, 1) = 1, not at 0 + max(2, 1) = 2 as the claim states. -/
theorem C1_counterexample :
    vC1.get_search_query = some qCD ∧ qCD.grapheme_count = 2 ∧
    vC1.search_next_start = { grapheme_index := 1, line_index := 1 } ∧
    vC1.search_next_start ≠
      { grapheme_index := vC1.text_location.grapheme_index + max qCD.grapheme_count 1,
        line_index := vC1.text_location.line_index } := by
  decide

/-- Claim C1 (amended): for every view in search mode with a non-empty query,
`search_next` starts its forward search `min(query grapheme count, 1) = 1`
grapheme past the current location (the code uses `min`, not `max`). -/
theorem C1_search_next_step (v : View) (q : Line)
    (hq : v.get_search_query = some q) (hne : q.grapheme_count ≠ 0) :
    v.search_next_start =
      { grapheme_index := v.text_location.grapheme_index + 1,
        line_index := v.text_location.line_index } := by
  unfold View.search_next_start
  rw [hq]
  have h1 : min q.grapheme_count 1 = 1 := by omega
  simp [h1]

/-- Witness for the amended C1 at the concrete search-mode view. -/
theorem C1_search_next_step_witness :
    vC1.get_search_query = some qCD ∧ qCD.grapheme_count ≠ 0 ∧
    vC1.search_next_start =
      { grapheme_index := vC1.text_location.grapheme_index + 1,
        line_index := vC1.text_location.line_index } :=
  ⟨by decide, by decide, C1_search_next_step vC1 qCD (by decide) (by decide)⟩

/-! Claim C2. -/

/-- Claim C2 counterexample: over ["ab", "cde"] with query "cd", the forward
search that `search_next` performs from {line 1, grapheme 1} does not return
none: the cyclic scan revisits line 1 from its start and re-reports the same
occurrence at {line 1, grapheme 0}. -/
theorem C2_counterexample :
    bufAB_CDE.search_forward qCD { grapheme_index := 1, line_index := 1 } =
      some { grapheme_index := 0, line_index := 1 } ∧
    bufAB_CDE.search_forward qCD { grapheme_index := 1, line_index := 1 } ≠ none := by
  decide

/-- Claim C2 (amended): `search_forward` from {0,0} finds the match at
{line 1, grapheme 0}; the subsequent `search_next` forward search from
{line 1, grapheme 1} wraps around the document and re-reports the same single
occurrence at {line 1, grapheme 0} instead of returning none. -/
theorem C2_search_scenario :
    bufAB_CDE.search_forward qCD { grapheme_index := 0, line_index := 0 } =
      some { grapheme_index := 0, line_index := 1 } ∧
    vC1.search_next_start = { grapheme_index := 1, line_index := 1 } ∧
    bufAB_CDE.search_forward qCD { grapheme_index := 1, line_index := 1 } =
      some { grapheme_index := 0, line_index := 1 } := by
  decide

/-! Claim C7. -/

/-- Every pair reported by `Line::match_grapheme_clusters` is cluster-aligned:
the query's number of clusters, taken from the reported grapheme index,
re-assembles exactly to the query string. -/
theorem mem_match_grapheme_clusters {l query : Line} {ms : List Nat} {p : Nat × Nat}
    (h : p ∈ l.match_grapheme_clusters ms query) :
    (((l.fragments.drop p.2).take query.grapheme_count).map
      (fun f => f.grapheme)).flatten = query.string := by
  unfold Line.match_grapheme_clusters at h
  simp only [List.mem_filterMap] at h
  obtain ⟨start, -, hf⟩ := h
  cases hg : l.byte_idx_to_grapheme_idx start with
  | none => rw [hg] at hf; simp at hf
  | some g =>
    rw [hg] at hf
    simp only [Option.some_bind] at hf
    split at hf
    · split at hf
      · simp only [Option.some_inj] at hf
        subst hf
        assumption
      · simp at hf
    · simp at hf

/-- Every pair reported by `Line::find_all` is cluster-aligned. -/
theorem mem_find_all {l query : Line} {a b : Nat} {p : Nat × Nat}
    (h : p ∈ l.find_all query a b) :
    (((l.fragments.drop p.2).take query.grapheme_count).map
      (fun f => f.grapheme)).flatten = query.string := by
  unfold Line.find_all at h
  split at h
  · exact mem_match_grapheme_clusters h
  · simp at h

/-- Claim C7: `Line::search_forward` and `Line::search_backward` report a
match at a grapheme index only if the byte match is cluster-aligned there: the
concatenation of the line's grapheme clusters starting at that index, taken
for as many clusters as the query segments into, equals the query. -/
theorem C7_search_cluster_aligned (l query : Line) (fromG g : Nat)
    (h : l.search_forward query fromG = some g ∨
      l.search_backward query fromG = some g) :
    (((l.fragments.drop g).take query.grapheme_count).map
      (fun f => f.grapheme)).flatten = query.string := by
  rcases h with h | h
  · unfold Line.search_forward at h
    split at h
    · simp at h
    · simp only [Option.map_eq_some'] at h
      obtain ⟨p, hp, hg⟩ := h
      have hmem : p ∈ l.find_all query (l.grapheme_idx_to_byte_idx fromG)
          l.string.length := List.mem_of_mem_head? hp
      subst hg
      exact mem_find_all hmem
  · unfold Line.search_backward at h
    split at h
    · simp at h
    · simp only [Option.map_eq_some'] at h
      obtain ⟨p, hp, hg⟩ := h
      have hmem := List.mem_of_getLast?_eq_some hp
      subst hg
      exact mem_find_all hmem

/-- Witness for C7: the forward search for "cd" in "cde" from grapheme 0
reports grapheme 0, and clusters 0..2 of "cde" re-assemble to "cd". -/
theorem C7_search_cluster_aligned_witness :
    (lineCDE.search_forward qCD 0 = some 0 ∨ lineCDE.search_backward qCD 0 = some 0) ∧
    (((lineCDE.fragments.drop 0).take qCD.grapheme_count).map
      (fun f => f.grapheme)).flatten = qCD.string :=
  ⟨Or.inl (by decide),
    C7_search_cluster_aligned lineCDE qCD 0 0 (Or.inl (by decide))⟩

/-! Claim C6. -/

/-- Claim C6: for `Buffer::delete(location)` on an existing line: at or past
end-of-line with a following line, the following line is merged in and the
line count shrinks by exactly one; within line bounds, exactly that cluster is
deleted from the line; otherwise the buffer is unchanged; the dirty flag is
set only in the two structural cases. -/
theorem C6_buffer_delete (b : Buffer) (loc : Location) (line : Line)
    (hline : b.lines.get? loc.line_index = some line) :
    (line.grapheme_count ≤ loc.grapheme_index → loc.line_index + 1 < b.height →
      (b.delete loc).lines.length + 1 = b.lines.length ∧
      (b.delete loc).lines.get? loc.line_index =
        some (line.append (b.lines.getD (loc.line_index + 1) ⟨[]⟩)) ∧
      (b.delete loc).dirty = true) ∧
    (loc.grapheme_index < line.grapheme_count →
      (b.delete loc).lines.length = b.lines.length ∧
      (b.delete loc).lines.get? loc.line_index = some (line.delete loc.grapheme_index) ∧
      (line.delete loc.grapheme_index).fragments =
        line.fragments.eraseIdx loc.grapheme_index ∧
      (b.delete loc).dirty = true) ∧
    (line.grapheme_count ≤ loc.grapheme_index → ¬ loc.line_index + 1 < b.height →
      b.delete loc = b) := by
  have hlen : loc.line_index < b.lines.length := by
    rw [List.get?_eq_getElem?] at hline
    exact (List.getElem?_eq_some_iff.mp hline).1
  have hheight : b.height = b.lines.length := rfl
  refine ⟨?_, ?_, ?_⟩
  · intro h1 h2
    have hdel : b.delete loc =
        { b with
          lines := ((b.lines.eraseIdx (loc.line_index + 1)).set loc.line_index
            (line.append (b.lines.getD (loc.line_index + 1) ⟨[]⟩))),
          dirty := true } := by
      unfold Buffer.delete
      rw [hline]
      dsimp only
      rw [if_pos ⟨h1, h2⟩]
    rw [hdel]
    have herase : (b.lines.eraseIdx (loc.line_index + 1)).length = b.lines.length - 1 :=
      List.length_eraseIdx_of_lt (by omega)
    refine ⟨by simp only [List.length_set]; omega, ?_, rfl⟩
    rw [List.get?_eq_getElem?, List.getElem?_set_self (by omega)]
  · intro h1
    have hdel : b.delete loc =
        { b with
          lines := b.lines.set loc.line_index (line.delete loc.grapheme_index),
          dirty := true } := by
      unfold Buffer.delete
      rw [hline]
      dsimp only
      rw [if_neg (by omega), if_pos h1]
    rw [hdel]
    refine ⟨by simp, ?_, ?_, rfl⟩
    · rw [List.get?_eq_getElem?, List.getElem?_set_self hlen]
    · unfold Line.delete
      rw [if_pos h1]
  · intro h1 h2
    unfold Buffer.delete
    rw [hline]
    dsimp only
    rw [if_neg (by tauto), if_neg (by omega)]

/-- Witness for C6: deleting at {line 0, grapheme 2} (end of "ab") in
["ab", "cde"] merges the lines. -/
theorem C6_buffer_delete_witness :
    bufAB_CDE.lines.get? 0 = some lineAB ∧
    ((lineAB.grapheme_count ≤ 2 → 0 + 1 < bufAB_CDE.height →
      (bufAB_CDE.delete { grapheme_index := 2, line_index := 0 }).lines.length + 1 =
        bufAB_CDE.lines.length ∧
      (bufAB_CDE.delete { grapheme_index := 2, line_index := 0 }).lines.get? 0 =
        some (lineAB.append (bufAB_CDE.lines.getD 1 ⟨[]⟩)) ∧
      (bufAB_CDE.delete { grapheme_index := 2, line_index := 0 }).dirty = true) ∧
    (2 < lineAB.grapheme_count →
      (bufAB_CDE.delete { grapheme_index := 2, line_index := 0 }).lines.length =
        bufAB_CDE.lines.length ∧
      (bufAB_CDE.delete { grapheme_index := 2, line_index := 0 }).lines.get? 0 =
        some (lineAB.delete 2) ∧
      (lineAB.delete 2).fragments = lineAB.fragments.eraseIdx 2 ∧
      (bufAB_CDE.delete { grapheme_index := 2, line_index := 0 }).dirty = true) ∧
    (lineAB.grapheme_count ≤ 2 → ¬ 0 + 1 < bufAB_CDE.height →
      bufAB_CDE.delete { grapheme_index := 2, line_index := 0 } = bufAB_CDE)) :=
  ⟨by decide,
    C6_buffer_delete bufAB_CDE { grapheme_index := 2, line_index := 0 } lineAB (by decide)⟩

/-! Claim C3. -/

/-- Scrolling the text location into view never changes the window size. -/
theorem scroll_into_view_size (v : View) :
    (v.scroll_text_location_into_view).size = v.size := by
  unfold View.scroll_text_location_into_view View.scroll_vertically
    View.scroll_horizontally
  dsimp only
  split_ifs <;> rfl

/-- Scrolling the text location into view never changes the text location. -/
theorem scroll_into_view_text_location (v : View) :
    (v.scroll_text_location_into_view).text_location = v.text_location := by
  unfold View.scroll_text_location_into_view View.scroll_vertically
    View.scroll_horizontally
  dsimp only
  split_ifs <;> rfl

/-- The rendered position depends only on the buffer and the text location. -/
theorem text_location_to_position_congr {v w : View} (hb : w.buffer = v.buffer)
    (ht : w.text_location = v.text_location) :
    w.text_location_to_position = v.text_location_to_position := by
  unfold View.text_location_to_position
  rw [hb, ht]

/-- Field effects of `View::scroll_vertically`: only the row offset changes,
the row offset lands so that `t` is inside the vertical window when the height
is positive, and nothing changes when `t` already is inside it. -/
theorem scroll_vertically_spec (v : View) (t : Nat) :
    (v.scroll_vertically t).buffer = v.buffer ∧
    (v.scroll_vertically t).text_location = v.text_location ∧
    (v.scroll_vertically t).size = v.size ∧
    (v.scroll_vertically t).scroll_offset.col = v.scroll_offset.col ∧
    (0 < v.size.height →
      (v.scroll_vertically t).scroll_offset.row ≤ t ∧
      t < (v.scroll_vertically t).scroll_offset.row + v.size.height) ∧
    (v.scroll_offset.row ≤ t → t < v.scroll_offset.row + v.size.height →
      v.scroll_vertically t = v) := by
  unfold View.scroll_vertically
  split_ifs with h1 h2
  · exact ⟨rfl, rfl, rfl, rfl,
      fun hh => ⟨by show t ≤ t; omega, by show t < t + v.size.height; omega⟩,
      fun hr _ => absurd hr (by omega)⟩
  · exact ⟨rfl, rfl, rfl, rfl,
      fun hh => ⟨by show t - v.size.height + 1 ≤ t; omega,
        by show t < t - v.size.height + 1 + v.size.height; omega⟩,
      fun _ hlt => absurd hlt (by omega)⟩
  · exact ⟨rfl, rfl, rfl, rfl, fun hh => ⟨by omega, by omega⟩, fun _ _ => rfl⟩

/-- Field effects of `View::scroll_horizontally`, symmetric to the vertical
case. -/
theorem scroll_horizontally_spec (v : View) (t : Nat) :
    (v.scroll_horizontally t).buffer = v.buffer ∧
    (v.scroll_horizontally t).text_location = v.text_location ∧
    (v.scroll_horizontally t).size = v.size ∧
    (v.scroll_horizontally t).scroll_offset.row = v.scroll_offset.row ∧
    (0 < v.size.width →
      (v.scroll_horizontally t).scroll_offset.col ≤ t ∧
      t < (v.scroll_horizontally t).scroll_offset.col + v.size.width) ∧
    (v.scroll_offset.col ≤ t → t < v.scroll_offset.col + v.size.width →
      v.scroll_horizontally t = v) := by
  unfold View.scroll_horizontally
  split_ifs with h1 h2
  · exact ⟨rfl, rfl, rfl, rfl,
      fun hw => ⟨by show t ≤ t; omega, by show t < t + v.size.width; omega⟩,
      fun hr _ => absurd hr (by omega)⟩
  · exact ⟨rfl, rfl, rfl, rfl,
      fun hw => ⟨by show t - v.size.width + 1 ≤ t; omega,
        by show t < t - v.size.width + 1 + v.size.width; omega⟩,
      fun _ hlt => absurd hlt (by omega)⟩
  · exact ⟨rfl, rfl, rfl, rfl, fun hw => ⟨by omega, by omega⟩, fun _ _ => rfl⟩

/-- With a positive window, `scroll_text_location_into_view` establishes the
containment of the cursor's rendered position in the window. -/
theorem scroll_into_view_cursor (v : View) (hh : 0 < v.size.height)
    (hw : 0 < v.size.width) :
    (v.scroll_text_location_into_view).cursor_in_view := by
  obtain ⟨hb1, ht1, hs1, -, hbound1, -⟩ :=
    scroll_vertically_spec v (v.text_location_to_position).row
  obtain ⟨hb2, ht2, hs2, hr2, hbound2, -⟩ :=
    scroll_horizontally_spec (v.scroll_vertically (v.text_location_to_position).row)
      (v.text_location_to_position).col
  have hview : v.scroll_text_location_into_view =
      (v.scroll_vertically (v.text_location_to_position).row).scroll_horizontally
        (v.text_location_to_position).col := rfl
  rw [hs1] at hbound2
  have hp2 : ((v.scroll_vertically (v.text_location_to_position).row).scroll_horizontally
      (v.text_location_to_position).col).text_location_to_position =
      v.text_location_to_position :=
    text_location_to_position_congr (by rw [hb2, hb1]) (by rw [ht2, ht1])
  rw [hview]
  unfold View.cursor_in_view
  rw [hp2, hr2, hs2, hs1]
  exact ⟨(hbound1 hh).1, (hbound1 hh).2, (hbound2 hw).1, (hbound2 hw).2⟩

/-- When the cursor is already inside the window,
`scroll_text_location_into_view` is the identity. -/
theorem scroll_into_view_of_in_view (v : View) (h : v.cursor_in_view) :
    v.scroll_text_location_into_view = v := by
  obtain ⟨h1, h2, h3, h4⟩ := h
  unfold View.scroll_text_location_into_view View.scroll_vertically
    View.scroll_horizontally
  dsimp only
  split_ifs <;> first
    | rfl
    | (exfalso; omega)

/-- Claim C3 counterexample: after the resize command to the zero size, the
rendered cursor position cannot lie in the empty window
`[scroll.row, scroll.row + 0)`, so the claimed invariant fails. -/
theorem C3_counterexample :
    ¬ (View.default.apply_command (ViewCommand.resize ⟨0, 0⟩)).cursor_in_view := by
  decide

/-- Claim C3 (amended): after each move or resize command, whenever the
window size in force after the command has positive height and width, the
cursor's rendered position (row = line index, col = sum of the display widths
of the graphemes before the cursor) lies within
`[scroll.row, scroll.row + height) × [scroll.col, scroll.col + width)`. -/
theorem C3_cursor_in_view_after_command (v : View) (c : ViewCommand)
    (hh : 0 < (v.apply_command c).size.height)
    (hw : 0 < (v.apply_command c).size.width) :
    (v.apply_command c).cursor_in_view := by
  cases c with
  | move m =>
    dsimp only [View.apply_command, View.handle_move_command] at *
    rw [scroll_into_view_size] at hh hw
    exact scroll_into_view_cursor _ hh hw
  | resize s =>
    dsimp only [View.apply_command, View.set_size] at *
    rw [scroll_into_view_size] at hh hw
    exact scroll_into_view_cursor _ hh hw

/-- Witness for the amended C3: a move on a 2 by 10 window. -/
theorem C3_cursor_in_view_after_command_witness :
    0 < (vC1.apply_command (ViewCommand.move Move.Right)).size.height ∧
    0 < (vC1.apply_command (ViewCommand.move Move.Right)).size.width ∧
    (vC1.apply_command (ViewCommand.move Move.Right)).cursor_in_view :=
  ⟨by decide, by decide,
    C3_cursor_in_view_after_command vC1 (ViewCommand.move Move.Right)
      (by decide) (by decide)⟩

/-! Claim C8. -/

/-- Claim C8 (amended): dismissing the search restores the snapshotted
location exactly, exits search mode, and sets the scroll offset to the
snapshotted offset re-adjusted by scroll-into-view under the current size; in
particular the offset is restored exactly whenever the restored cursor lies in
the restored window at the current size (always the case when the size did not
change during the search). -/
theorem C8_dismiss_restores (v : View) (si : SearchInfo)
    (h : v.search_info = some si) :
    (v.dismiss_search).text_location = si.prev_location ∧
    (v.dismiss_search).search_info = none ∧
    (({ v with
        text_location := si.prev_location,
        scroll_offset := si.prev_scroll_offset } : View).cursor_in_view →
      (v.dismiss_search).scroll_offset = si.prev_scroll_offset) := by
  unfold View.dismiss_search
  rw [h]
  dsimp only [View.exit_search]
  refine ⟨?_, rfl, ?_⟩
  · rw [scroll_into_view_text_location]
  · intro hin
    rw [scroll_into_view_of_in_view _ hin]

/-- Witness for the amended C8 at a concrete search-mode view whose snapshot
is in view. -/
theorem C8_dismiss_restores_witness :
    vC1.search_info = some
      { prev_location := { grapheme_index := 0, line_index := 0 }
        prev_scroll_offset := ⟨0, 0⟩
        query := some qCD } ∧
    ((vC1.dismiss_search).text_location = { grapheme_index := 0, line_index := 0 } ∧
    (vC1.dismiss_search).search_info = none ∧
    (({ vC1 with
        text_location := { grapheme_index := 0, line_index := 0 },
        scroll_offset := ⟨0, 0⟩ } : View).cursor_in_view →
      (vC1.dismiss_search).scroll_offset = ⟨0, 0⟩)) :=
  ⟨by decide,
    C8_dismiss_restores vC1
      { prev_location := { grapheme_index := 0, line_index := 0 }
        prev_scroll_offset := ⟨0, 0⟩
        query := some qCD } (by decide)⟩

/-- A reachable search-mode state: from the default view, resize to 2 by 3,
insert six newlines, move up twice and down once (cursor at line 5, scroll row
4), then enter search. -/
def vTrace : View :=
  ((((((((((View.default.set_size ⟨2, 3⟩).insert_newline).insert_newline).insert_newline).insert_newline).insert_newline).insert_newline).handle_move_command
    Move.Up).handle_move_command Move.Up).handle_move_command Move.Down).enter_search

/-- Claim C8 counterexample: in the reachable search-mode state `vTrace`
(snapshot offset row 4), resizing to height 1 during the search and then
dismissing yields scroll offset row 5, not the snapshotted row 4: the claim's
"restores ... the scroll offset exactly" fails. -/
theorem C8_counterexample :
    vTrace.search_info = some
      { prev_location := { grapheme_index := 0, line_index := 5 }
        prev_scroll_offset := ⟨4, 0⟩
        query := none } ∧
    (vTrace.set_size ⟨1, 3⟩).search_info = vTrace.search_info ∧
    ((vTrace.set_size ⟨1, 3⟩).dismiss_search).text_location =
      { grapheme_index := 0, line_index := 5 } ∧
    ((vTrace.set_size ⟨1, 3⟩).dismiss_search).scroll_offset = ⟨5, 0⟩ ∧
    (⟨5, 0⟩ : Position) ≠ ⟨4, 0⟩ := by
  decide

/-! Claim C4. -/

/-- The index adjustment of `AnnotatedString::replace` never moves a boundary
that was within the old string past the end of the new string. -/
theorem adjustIdx_le_newLen (st endC len newLen idx : Nat)
    (hst : st ≤ endC) (hendC : endC ≤ len) (hidx : idx ≤ len) :
    adjustIdx st endC
      (if newLen ≥ endC - st then newLen - (endC - st) else (endC - st) - newLen)
      newLen (endC - st) idx ≤ st + newLen + (len - endC) := by
  unfold adjustIdx
  split_ifs <;> omega

/-- Claim C4: if every annotation satisfies `start < end ≤ length`, then after
any `replace` every remaining annotation again satisfies
`start < end ≤ current length` (degenerate annotations are dropped by the
retain step, never kept). -/
theorem C4_replace_keeps_invariant (s : AnnotatedString) (st en : Nat)
    (new : List Char)
    (h : ∀ a ∈ s.annotations,
      a.start_byte_idx < a.end_byte_idx ∧ a.end_byte_idx ≤ s.string.length) :
    ∀ a ∈ (s.replace st en new).annotations,
      a.start_byte_idx < a.end_byte_idx ∧
      a.end_byte_idx ≤ (s.replace st en new).string.length := by
  intro a ha
  simp only [AnnotatedString.replace] at ha ⊢
  by_cases h1 : st > min en s.string.length
  · rw [if_pos h1] at ha ⊢
    exact h a ha
  · rw [if_neg h1] at ha ⊢
    have hst : st ≤ min en s.string.length := by omega
    have hmin : min en s.string.length ≤ s.string.length := Nat.min_le_right _ _
    have hlen2 : (s.string.take st ++ new ++ s.string.drop (min en s.string.length)).length
        = st + new.length + (s.string.length - min en s.string.length) := by
      simp only [List.length_append, List.length_take, List.length_drop]
      omega
    by_cases h2 : (if new.length ≥ min en s.string.length - st
        then new.length - (min en s.string.length - st)
        else (min en s.string.length - st) - new.length) = 0
    · rw [if_pos h2] at ha ⊢
      have hnew : new.length = min en s.string.length - st := by
        split at h2 <;> omega
      obtain ⟨hae, hal⟩ := h a ha
      exact ⟨hae, by rw [hlen2]; omega⟩
    · rw [if_neg h2] at ha ⊢
      rw [List.mem_filter] at ha
      obtain ⟨hmem, hcond⟩ := ha
      rw [List.mem_map] at hmem
      obtain ⟨a0, ha0, hmap⟩ := hmem
      simp only [decide_eq_true_eq] at hcond
      refine ⟨hcond.1, ?_⟩
      obtain ⟨ha0e, ha0l⟩ := h a0 ha0
      have hadj := adjustIdx_le_newLen st (min en s.string.length) s.string.length
        new.length a0.end_byte_idx hst hmin (by omega)
      rw [hlen2]
      have hend : a.end_byte_idx =
          adjustIdx st (min en s.string.length)
            (if new.length ≥ min en s.string.length - st
              then new.length - (min en s.string.length - st)
              else (min en s.string.length - st) - new.length)
            new.length (min en s.string.length - st) a0.end_byte_idx := by
        rw [← hmap]
      rw [hend]
      exact hadj

/-- A concrete annotated string for the C4 witness: "abc" with two valid
annotations. -/
def s4 : AnnotatedString :=
  ⟨['a', 'b', 'c'], [⟨.Match, 0, 2⟩, ⟨.SelectedMatch, 1, 3⟩]⟩

/-- Witness for C4: a shortening replacement on `s4` keeps the invariant. -/
theorem C4_replace_keeps_invariant_witness :
    (∀ a ∈ s4.annotations,
      a.start_byte_idx < a.end_byte_idx ∧ a.end_byte_idx ≤ s4.string.length) ∧
    (∀ a ∈ (s4.replace 1 3 ['x']).annotations,
      a.start_byte_idx < a.end_byte_idx ∧
      a.end_byte_idx ≤ (s4.replace 1 3 ['x']).string.length) :=
  ⟨by decide, C4_replace_keeps_invariant s4 1 3 ['x'] (by decide)⟩

/-! Claim C9. -/

/-- Slicing inside a `take` prefix equals slicing the original list. -/
theorem slice_take (l : List Char) (st i j : Nat) (hj : j ≤ st) :
    ((l.take st).drop i).take (j - i) = (l.drop i).take (j - i) := by
  rw [List.drop_take, List.take_take]
  congr 1
  omega

/-- Slicing inside the left part of an append ignores the right part. -/
theorem slice_append_left (l1 l2 : List Char) (i j : Nat) (hj : j ≤ l1.length) :
    ((l1 ++ l2).drop i).take (j - i) = (l1.drop i).take (j - i) := by
  rw [List.drop_append_eq_append_drop, List.take_append_eq_append_take]
  have h0 : j - i - (l1.drop i).length = 0 := by
    rw [List.length_drop]
    omega
  rw [h0, List.take_zero, List.append_nil]

/-- Dropping past the left part of an append drops into the right part. -/
theorem drop_append_right (l1 l2 : List Char) (k : Nat) :
    (l1 ++ l2).drop (l1.length + k) = l2.drop k := by
  rw [List.drop_append_eq_append_drop]
  have h1 : l1.drop (l1.length + k) = [] := List.drop_eq_nil_of_le (by omega)
  rw [h1, List.nil_append]
  congr 1
  omega

/-- Claim C9 counterexample: on "ab" with the annotation [0,1) (selecting "a"),
the insertion `replace(1, 1, "x")` — whose region [1,1) is disjoint from the
annotation — extends the annotation to [0,2), which now selects "ax", not the
identical substring "a". -/
theorem C9_counterexample :
    (AnnotatedString.replace ⟨['a', 'b'], [⟨.Match, 0, 1⟩]⟩ 1 1 ['x']).annotations =
      [⟨.Match, 0, 2⟩] ∧
    (AnnotatedString.replace ⟨['a', 'b'], [⟨.Match, 0, 1⟩]⟩ 1 1 ['x']).string =
      ['a', 'x', 'b'] ∧
    ((AnnotatedString.replace ⟨['a', 'b'], [⟨.Match, 0, 1⟩]⟩ 1 1 ['x']).string.drop 0).take
        (2 - 0) ≠
      ((['a', 'b'] : List Char).drop 0).take (1 - 0) := by
  decide

/-- Claim C9 (amended): for every `replace(start, end, new)` call with
`start ≤ end ≤ length`, every valid annotation lying entirely outside the
edited region with its end strictly before `start`, or entirely at or after
`end`, still selects the identical substring after the edit (an annotation
ending exactly at `start` may instead be extended into the inserted text, as
the counterexample shows). -/
theorem C9_replace_frame (s : AnnotatedString) (st en : Nat) (new : List Char)
    (a : Annot) (ha : a ∈ s.annotations)
    (hae : a.start_byte_idx < a.end_byte_idx)
    (hal : a.end_byte_idx ≤ s.string.length)
    (hst : st ≤ en) (hen : en ≤ s.string.length)
    (houtside : a.end_byte_idx < st ∨ en ≤ a.start_byte_idx) :
    ∃ a2 ∈ (s.replace st en new).annotations,
      a2.annotation_type = a.annotation_type ∧
      ((s.replace st en new).string.drop a2.start_byte_idx).take
          (a2.end_byte_idx - a2.start_byte_idx) =
        (s.string.drop a.start_byte_idx).take
          (a.end_byte_idx - a.start_byte_idx) := by
  have hendC : min en s.string.length = en := min_eq_left hen
  simp only [AnnotatedString.replace, hendC]
  rw [if_neg (by omega)]
  have htklen : (s.string.take st).length = st := by
    rw [List.length_take]
    omega
  have hlen2 : (s.string.take st ++ new ++ s.string.drop en).length
      = st + new.length + (s.string.length - en) := by
    simp only [List.length_append, List.length_take, List.length_drop]
    omega
  have hpref : ∀ i j : Nat, j ≤ st →
      ((s.string.take st ++ new ++ s.string.drop en).drop i).take (j - i) =
        (s.string.drop i).take (j - i) := by
    intro i j hj
    rw [List.append_assoc, slice_append_left _ _ i j (by omega)]
    exact slice_take s.string st i j hj
  have hsuff : ∀ k : Nat,
      (s.string.take st ++ new ++ s.string.drop en).drop (st + new.length + k) =
        s.string.drop (en + k) := by
    intro k
    rw [List.append_assoc]
    rw [show st + new.length + k = (s.string.take st).length + (new.length + k) by
      rw [htklen]; omega]
    rw [drop_append_right]
    rw [drop_append_right new (s.string.drop en) k]
    rw [List.drop_drop]
  by_cases h2 : (if new.length ≥ en - st
      then new.length - (en - st) else (en - st) - new.length) = 0
  · rw [if_pos h2]
    have hnew : new.length = en - st := by
      split at h2 <;> omega
    refine ⟨a, ha, rfl, ?_⟩
    rcases houtside with hl | hr
    · exact hpref a.start_byte_idx a.end_byte_idx (by omega)
    · have h1 : (s.string.take st ++ new ++ s.string.drop en).drop a.start_byte_idx =
          s.string.drop a.start_byte_idx := by
        have := hsuff (a.start_byte_idx - en)
        rw [show st + new.length + (a.start_byte_idx - en) = a.start_byte_idx by omega,
          show en + (a.start_byte_idx - en) = a.start_byte_idx by omega] at this
        exact this
      rw [h1]
  · rw [if_neg h2]
    rcases houtside with hl | hr
    · have hstart2 : adjustIdx st en
          (if new.length ≥ en - st then new.length - (en - st)
            else (en - st) - new.length)
          new.length (en - st) a.start_byte_idx = a.start_byte_idx := by
        unfold adjustIdx
        rw [if_neg (by omega), if_neg (by omega)]
      have hend2 : adjustIdx st en
          (if new.length ≥ en - st then new.length - (en - st)
            else (en - st) - new.length)
          new.length (en - st) a.end_byte_idx = a.end_byte_idx := by
        unfold adjustIdx
        rw [if_neg (by omega), if_neg (by omega)]
      refine ⟨a, ?_, rfl, ?_⟩
      · apply List.mem_filter.mpr
        refine ⟨?_, ?_⟩
        · refine List.mem_map.mpr ⟨a, ha, ?_⟩
          show ({ a with
              start_byte_idx := adjustIdx st en
                (if new.length ≥ en - st then new.length - (en - st)
                  else (en - st) - new.length) new.length (en - st) a.start_byte_idx,
              end_byte_idx := adjustIdx st en
                (if new.length ≥ en - st then new.length - (en - st)
                  else (en - st) - new.length) new.length (en - st) a.end_byte_idx
              } : Annot) = a
          rw [hstart2, hend2]
        · simp only [decide_eq_true_eq]
          exact ⟨hae, by omega⟩
      · exact hpref a.start_byte_idx a.end_byte_idx (by omega)
    · have hen_le_end : en ≤ a.end_byte_idx := by omega
      have hstart2 : adjustIdx st en
          (if new.length ≥ en - st then new.length - (en - st)
            else (en - st) - new.length)
          new.length (en - st) a.start_byte_idx =
          st + new.length + (a.start_byte_idx - en) := by
        unfold adjustIdx
        rw [if_pos hr]
        split_ifs <;> omega
      have hend2 : adjustIdx st en
          (if new.length ≥ en - st then new.length - (en - st)
            else (en - st) - new.length)
          new.length (en - st) a.end_byte_idx =
          st + new.length + (a.end_byte_idx - en) := by
        unfold adjustIdx
        rw [if_pos hen_le_end]
        split_ifs <;> omega
      refine ⟨{ a with
          start_byte_idx := st + new.length + (a.start_byte_idx - en),
          end_byte_idx := st + new.length + (a.end_byte_idx - en) }, ?_, rfl, ?_⟩
      · apply List.mem_filter.mpr
        refine ⟨?_, ?_⟩
        · refine List.mem_map.mpr ⟨a, ha, ?_⟩
          show ({ a with
              start_byte_idx := adjustIdx st en
                (if new.length ≥ en - st then new.length - (en - st)
                  else (en - st) - new.length) new.length (en - st) a.start_byte_idx,
              end_byte_idx := adjustIdx st en
                (if new.length ≥ en - st then new.length - (en - st)
                  else (en - st) - new.length) new.length (en - st) a.end_byte_idx
              } : Annot) = { a with
              start_byte_idx := st + new.length + (a.start_byte_idx - en),
              end_byte_idx := st + new.length + (a.end_byte_idx - en) }
          rw [hstart2, hend2]
        · simp only [decide_eq_true_eq]
          constructor
          · show st + new.length + (a.start_byte_idx - en) <
              st + new.length + (a.end_byte_idx - en)
            omega
          · show st + new.length + (a.start_byte_idx - en) <
              (s.string.take st ++ new ++ s.string.drop en).length
            rw [hlen2]
            omega
      · show ((s.string.take st ++ new ++ s.string.drop en).drop
            (st + new.length + (a.start_byte_idx - en))).take
            (st + new.length + (a.end_byte_idx - en) -
              (st + new.length + (a.start_byte_idx - en))) =
          (s.string.drop a.start_byte_idx).take
            (a.end_byte_idx - a.start_byte_idx)
        rw [hsuff (a.start_byte_idx - en)]
        rw [show en + (a.start_byte_idx - en) = a.start_byte_idx by omega]
        congr 1
        omega

/-- Witness for the amended C9: replacing [2,3) of "abcd" with "xyz" keeps
the annotation [0,1) (strictly before the edit) selecting "a". -/
theorem C9_replace_frame_witness :
    (⟨.Match, 0, 1⟩ : Annot) ∈
      (⟨['a', 'b', 'c', 'd'],
        [⟨.Match, 0, 1⟩, ⟨.SelectedMatch, 3, 4⟩]⟩ : AnnotatedString).annotations ∧
    (0 : Nat) < 1 ∧ (1 : Nat) ≤ 4 ∧ (2 : Nat) ≤ 3 ∧ (3 : Nat) ≤ 4 ∧
    ((1 : Nat) < 2 ∨ (3 : Nat) ≤ 0) ∧
    (∃ a2 ∈ ((⟨['a', 'b', 'c', 'd'],
        [⟨.Match, 0, 1⟩, ⟨.SelectedMatch, 3, 4⟩]⟩ : AnnotatedString).replace 2 3
          ['x', 'y', 'z']).annotations,
      a2.annotation_type = AnnotType.Match ∧
      (((⟨['a', 'b', 'c', 'd'],
          [⟨.Match, 0, 1⟩, ⟨.SelectedMatch, 3, 4⟩]⟩ : AnnotatedString).replace 2 3
            ['x', 'y', 'z']).string.drop a2.start_byte_idx).take
          (a2.end_byte_idx - a2.start_byte_idx) =
        ((['a', 'b', 'c', 'd'] : List Char).drop 0).take (1 - 0)) := by
  refine ⟨by decide, by decide, by decide, by decide, by decide, by decide, ?_⟩
  exact C9_replace_frame
    ⟨['a', 'b', 'c', 'd'], [⟨.Match, 0, 1⟩, ⟨.SelectedMatch, 3, 4⟩]⟩ 2 3
    ['x', 'y', 'z'] ⟨.Match, 0, 1⟩ (by decide) (by decide) (by decide)
    (by decide) (by decide) (Or.inl (by decide))

/-! Claim C5. -/

/-- The scan for the nearest annotation start in the unannotated branch of the
iterator stays strictly above `current` and never grows. -/
theorem iterFold_bound (anns : List Annot) (current : Nat) :
    ∀ e, current < e →
      current < anns.foldl
        (fun e a => if a.start_byte_idx > current ∧ a.start_byte_idx < e
          then a.start_byte_idx else e) e ∧
      anns.foldl
        (fun e a => if a.start_byte_idx > current ∧ a.start_byte_idx < e
          then a.start_byte_idx else e) e ≤ e := by
  induction anns with
  | nil => exact fun e he => ⟨he, le_refl e⟩
  | cons a t ih =>
    intro e he
    simp only [List.foldl_cons]
    by_cases hc : a.start_byte_idx > current ∧ a.start_byte_idx < e
    · rw [if_pos hc]
      obtain ⟨h1, h2⟩ := ih a.start_byte_idx hc.1
      exact ⟨h1, le_trans h2 (le_of_lt hc.2)⟩
    · rw [if_neg hc]
      exact ih e he

/-- Soundness of one iterator step: it fires exactly below the string length,
advances strictly, stays within the string, emits the exact slice it skipped,
and tags it with the effective annotation state of the slice's first byte. -/
theorem iterNext_sound (s : AnnotatedString) (current : Nat)
    (part : AnnotatedStringPart) (next : Nat)
    (h : s.iterNext current = some (part, next)) :
    current < s.string.length ∧ current < next ∧ next ≤ s.string.length ∧
    part.string = (s.string.drop current).take (next - current) ∧
    part.annotation_type = s.effectiveAnnot current := by
  unfold AnnotatedString.iterNext at h
  split at h
  · exact absurd h (by simp)
  · rename_i hcur
    cases hlast : (s.annotations.filter (fun a =>
        decide (a.start_byte_idx ≤ current ∧ current < a.end_byte_idx))).getLast? with
    | some a =>
      rw [hlast] at h
      dsimp only at h
      simp only [Option.some_inj, Prod.mk.injEq] at h
      obtain ⟨hp, hn⟩ := h
      have hmemfil := List.mem_of_getLast?_eq_some hlast
      rw [List.mem_filter] at hmemfil
      obtain ⟨-, hcond⟩ := hmemfil
      simp only [decide_eq_true_eq] at hcond
      subst hp hn
      refine ⟨by omega, by omega, Nat.min_le_right _ _, rfl, ?_⟩
      unfold AnnotatedString.effectiveAnnot
      rw [hlast]
      rfl
    | none =>
      rw [hlast] at h
      dsimp only at h
      simp only [Option.some_inj, Prod.mk.injEq] at h
      obtain ⟨hp, hn⟩ := h
      have hb := iterFold_bound s.annotations current s.string.length (by omega)
      subst hp hn
      refine ⟨by omega, hb.1, hb.2, rfl, ?_⟩
      unfold AnnotatedString.effectiveAnnot
      rw [hlast]
      rfl

/-- The iterator yields `none` only at or past the end of the string. -/
theorem iterNext_none (s : AnnotatedString) (current : Nat)
    (h : s.iterNext current = none) : s.string.length ≤ current := by
  unfold AnnotatedString.iterNext at h
  split at h
  · rename_i hcur
    omega
  · exfalso
    cases hlast : (s.annotations.filter (fun a =>
        decide (a.start_byte_idx ≤ current ∧ current < a.end_byte_idx))).getLast? with
    | some a => rw [hlast] at h; simp at h
    | none => rw [hlast] at h; simp at h

/-- Re-assembling a slice with the remainder of the list. -/
theorem take_drop_append (l : List Char) (i j : Nat) (hij : i ≤ j) :
    (l.drop i).take (j - i) ++ l.drop j = l.drop i := by
  have h1 : l.drop j = (l.drop i).drop (j - i) := by
    rw [List.drop_drop]
    congr 1
    omega
  rw [h1, List.take_append_drop]

/-- With enough fuel, collecting iterator parts from `current` covers exactly
the remaining suffix of the string. -/
theorem iterPartsAux_flatten (s : AnnotatedString) :
    ∀ (fuel current : Nat), s.string.length ≤ current + fuel →
      ((s.iterPartsAux current fuel).map (fun p => p.string)).flatten =
        s.string.drop current := by
  intro fuel
  induction fuel with
  | zero =>
    intro current hcur
    simp only [AnnotatedString.iterPartsAux]
    rw [List.drop_eq_nil_of_le (by omega)]
    rfl
  | succ fuel ih =>
    intro current hcur
    cases hnext : s.iterNext current with
    | none =>
      simp only [AnnotatedString.iterPartsAux, hnext]
      rw [List.drop_eq_nil_of_le (iterNext_none s current hnext)]
      rfl
    | some pn =>
      obtain ⟨p, next⟩ := pn
      simp only [AnnotatedString.iterPartsAux, hnext]
      obtain ⟨-, h2, h3, h4, -⟩ := iterNext_sound s current p next hnext
      rw [List.map_cons, List.flatten_cons, ih next (by omega), h4]
      exact take_drop_append s.string current next (by omega)

/-- Claim C5 (amended): iterating an `AnnotatedString` yields consecutive
nonempty runs covering the whole string with no gaps and no overlaps (their
concatenation is exactly the string), where each run carries the effective
annotation state — the last-added annotation whose range contains the byte —
of the run's FIRST byte and extends to that annotation's clamped end (or to
the next annotation start when unannotated); later bytes of a run may have a
different effective state, and adjacent runs with equal state are not merged. -/
theorem C5_iter_runs (s : AnnotatedString) :
    ((s.iterParts.map (fun p => p.string)).flatten = s.string) ∧
    (∀ current part next, s.iterNext current = some (part, next) →
      current < next ∧ next ≤ s.string.length ∧
      part.string = (s.string.drop current).take (next - current) ∧
      part.annotation_type = s.effectiveAnnot current) := by
  constructor
  · have h := iterPartsAux_flatten s (s.string.length + 1) 0 (by omega)
    rw [List.drop_zero] at h
    exact h
  · intro current part next h
    obtain ⟨-, h2, h3, h4, h5⟩ := iterNext_sound s current part next h
    exact ⟨h2, h3, h4, h5⟩

/-- Witness for the amended C5 on "ab" annotated with Match on [0,1). -/
theorem C5_iter_runs_witness :
    ((AnnotatedString.iterNext ⟨['a', 'b'], [⟨.Match, 0, 1⟩]⟩ 0 =
      some (⟨['a'], some .Match⟩, 1))) ∧
    ((0 : Nat) < 1 ∧
      (1 : Nat) ≤ (⟨['a', 'b'], [⟨.Match, 0, 1⟩]⟩ : AnnotatedString).string.length ∧
      (⟨['a'], some .Match⟩ : AnnotatedStringPart).string =
        ((⟨['a', 'b'], [⟨.Match, 0, 1⟩]⟩ : AnnotatedString).string.drop 0).take (1 - 0) ∧
      (⟨['a'], some .Match⟩ : AnnotatedStringPart).annotation_type =
        (⟨['a', 'b'], [⟨.Match, 0, 1⟩]⟩ : AnnotatedString).effectiveAnnot 0) :=
  ⟨by decide,
    (C5_iter_runs ⟨['a', 'b'], [⟨.Match, 0, 1⟩]⟩).2 0 ⟨['a'], some .Match⟩ 1 (by decide)⟩

/-- The annotated string "abcd" with Match on [0,4) added first and
SelectedMatch on [1,3) added second. -/
def s5 : AnnotatedString :=
  ⟨['a', 'b', 'c', 'd'], [⟨.Match, 0, 4⟩, ⟨.SelectedMatch, 1, 3⟩]⟩

/-- Claim C5 counterexample: on `s5` the iteration emits the single run
("abcd", Match) — byte 1 lies in that run, yet its effective state (the
last-added annotation containing it) is SelectedMatch, not Match, so a run is
not a maximal region of constant effective state and the per-byte last-wins
rule fails inside runs. -/
theorem C5_counterexample :
    s5.iterParts = [⟨['a', 'b', 'c', 'd'], some AnnotType.Match⟩] ∧
    s5.effectiveAnnot 1 = some AnnotType.SelectedMatch ∧
    some AnnotType.SelectedMatch ≠ some AnnotType.Match := by
  decide

end Hecto
